import Mathlib

/-!
Verification of the marketing-economics core (`core.py`) of the
prestige-fragrance go-to-market calculator: unit economics (`ltv_gm`,
`payback_month`), the promo-calendar evaluator (`eval_promo_calendar`),
the prestige-protection scorer (`prestige_protection_index`, `ppi_band`)
and the advisory rule engine (`advisor`).

Python floats are modelled as real numbers; Python `int` horizons
(`weeks`, `months`) as `ℕ` (the spec requires them positive, and
`range(1, n+1)` iterates `n` times for every `n ≥ 0`); Python's
`Optional[int]` as `Option ℕ`; the string-keyed weight dict as an
association list `List (String × ℝ)` (dict keys are unique, so summing
entries and first-match lookup agree with dict semantics); `None` for
the optional weights argument as `Option`.
-/

namespace PrestigeGTM

/-- `clamp(x, lo, hi) = max(lo, min(hi, x))` from core.py. -/
def clamp (x lo hi : ℝ) : ℝ := max lo (min hi x)

/-- `promo_delta_pct(net_gm_delta, baseline_gm)` from core.py:
`(net_gm_delta / baseline_gm) * 100.0 if baseline_gm > 0 else 0.0`. -/
noncomputable def promo_delta_pct (net_gm_delta baseline_gm : ℝ) : ℝ :=
  if 0 < baseline_gm then net_gm_delta / baseline_gm * 100 else 0

/-- `ppi_band(ppi, green_max=35.0, amber_max=65.0)` from core.py. -/
noncomputable def ppi_band (ppi green_max amber_max : ℝ) : String :=
  if ppi ≤ green_max then "Green"
  else if ppi ≤ amber_max then "Amber"
  else "Red"

/-- `ltv_gm(arpu, gm_pct, retention, months)` from core.py. -/
noncomputable def ltv_gm (arpu gm_pct retention : ℝ) (months : ℕ) : ℝ :=
  let gm := arpu * gm_pct
  if retention = 1 then gm * months
  else gm * (retention * (1 - retention ^ months) / (1 - retention))

/-- The loop of `payback_month` from core.py: running accumulator `cum`,
current month `t`, and the number of remaining iterations as fuel. -/
noncomputable def paybackFrom (gm retention cac : ℝ) : ℝ → ℕ → ℕ → Option ℕ
  | _, _, 0 => none
  | cum, t, fuel + 1 =>
    let cum' := cum + gm * retention ^ t
    if cac ≤ cum' then some t else paybackFrom gm retention cac cum' (t + 1) fuel

/-- `payback_month(arpu, gm_pct, retention, cac, months)` from core.py:
`cum` starts at `0.0` and `t` runs over `range(1, months+1)`. -/
noncomputable def payback_month (arpu gm_pct retention cac : ℝ) (months : ℕ) :
    Option ℕ :=
  paybackFrom (arpu * gm_pct) retention cac 0 1 months

/-- The cumulative discounted margin after `t` months,
`Σ_{k=1..t} arpu*gm_pct*retention^k`; the value of the accumulator `cum`
of `payback_month` after the iteration for month `t`. -/
def cumGM (gm retention : ℝ) (t : ℕ) : ℝ :=
  ∑ k in Finset.Icc 1 t, gm * retention ^ k

/-- The `PromoEvent` dataclass from core.py. -/
structure PromoEvent where
  week : ℕ
  depth : ℝ
  channel : String

/-- The `PromoEvalResult` dataclass from core.py. -/
structure PromoEvalResult where
  net_gm_delta : ℝ
  baseline_recovery_weeks : ℝ
  avg_depth : ℝ
  promo_days_pct : ℝ
  cannibalization_share : ℝ
  pull_forward_share : ℝ
  baseline_gm : ℝ
  delta_pct : ℝ

/-- The dict comprehension `promo_by_week = {e.week: e for e in events}` of
`eval_promo_calendar`, as a lookup: later events overwrite earlier ones, so
the lookup returns the last event with the given week. -/
def promoByWeek (events : List PromoEvent) (w : ℕ) : Option PromoEvent :=
  events.reverse.find? (fun e => e.week = w)

/-- One iteration of the week loop of `eval_promo_calendar` from core.py:
returns the contribution of week `w` to `net_gm` and to `trough_penalty`. -/
noncomputable def weekContrib (baseline_weekly_units list_price gm_pct
    elasticity : ℝ) (events : List PromoEvent)
    (pull_forward_factor cannibalization_factor : ℝ) (w : ℕ) : ℝ × ℝ :=
  match promoByWeek events w with
  | some e =>
    let d := clamp e.depth 0 0.8
    let price := (1 - d) * list_price
    let mult := (1 / (1 - d)) ^ (max 0 elasticity)
    let units := baseline_weekly_units * mult
    let gm_week := units * price * gm_pct
    let base_week_gm := baseline_weekly_units * list_price * gm_pct
    let uplift := max 0 (gm_week - base_week_gm)
    let cannib := uplift * cannibalization_factor
    let pull_fwd := uplift * pull_forward_factor
    let incremental := uplift - cannib - pull_fwd
    (base_week_gm + incremental + cannib + pull_fwd, pull_fwd)
  | none => (baseline_weekly_units * list_price * gm_pct, 0)

/-- `eval_promo_calendar(...)` from core.py. The `for w in range(1, weeks+1)`
loop accumulating `net_gm` and `trough_penalty` is embedded as sums of the
per-week contributions `weekContrib` over `w = 1..weeks` (real addition is
associative and commutative, so the running totals equal these sums). -/
noncomputable def eval_promo_calendar (baseline_weekly_units list_price gm_pct
    elasticity : ℝ) (weeks : ℕ) (events : List PromoEvent)
    (pull_forward_factor cannibalization_factor : ℝ) : PromoEvalResult :=
  let baseline_gm_total : ℝ := (weeks : ℝ) * baseline_weekly_units * list_price * gm_pct
  let contribs := (List.range weeks).map (fun i =>
    weekContrib baseline_weekly_units list_price gm_pct elasticity events
      pull_forward_factor cannibalization_factor (i + 1))
  let net_gm := (contribs.map Prod.fst).sum
  let trough_penalty := (contribs.map Prod.snd).sum
  let net_gm_delta := net_gm - baseline_gm_total - trough_penalty
  let avg_depth : ℝ :=
    if events.isEmpty then 0
    else (events.map PromoEvent.depth).sum / (events.length : ℝ)
  let promo_days_pct : ℝ :=
    if 0 < weeks then (events.length : ℝ) / (weeks : ℝ) else 0
  let baseline_recovery_weeks := max 0 (2 + 10 * avg_depth * pull_forward_factor)
  let delta_pct := promo_delta_pct net_gm_delta baseline_gm_total
  { net_gm_delta := net_gm_delta
    baseline_recovery_weeks := baseline_recovery_weeks
    avg_depth := avg_depth
    promo_days_pct := promo_days_pct
    cannibalization_share := cannibalization_factor
    pull_forward_share := pull_forward_factor
    baseline_gm := baseline_gm_total
    delta_pct := delta_pct }

/-- The fixed default weight table of `prestige_protection_index`. -/
def default_weights : List (String × ℝ) :=
  [("promo_days", 0.20), ("avg_depth", 0.25), ("code_share", 0.25),
   ("hero", 0.20), ("leakage", 0.10)]

/-- Sum of the values of a weight mapping (`sum(weights.values())`). -/
def sumVals (w : List (String × ℝ)) : ℝ := (w.map Prod.snd).sum

/-- Dict lookup with default `0.0` (`norm.get(key, 0.0)` before the division
by `total` is factored out). -/
def wget : List (String × ℝ) → String → ℝ
  | [], _ => 0
  | (k, v) :: rest, key => if k = key then v else wget rest key

/-- `prestige_protection_index(...)` from core.py. `weights=None` is the
`Option.none` argument; `total = sum(weights.values()) if weights else 0.0`
is the `isEmpty` test; if `total ≤ 0` the default table with `total = 1` is
substituted; `norm = {k: v/total}` is inlined as `wget w k / total`. -/
noncomputable def prestige_protection_index (promo_days_pct avg_depth
    code_share hero_discount_incidence leakage : ℝ)
    (weights : Option (List (String × ℝ))) : ℝ :=
  let w0 := weights.getD default_weights
  let total0 : ℝ := if w0.isEmpty then 0 else sumVals w0
  let w := if total0 ≤ 0 then default_weights else w0
  let total : ℝ := if total0 ≤ 0 then 1 else total0
  let score_0_to_1 :=
    wget w "promo_days" / total * promo_days_pct +
    wget w "avg_depth" / total * avg_depth +
    wget w "code_share" / total * code_share +
    wget w "hero" / total * hero_discount_incidence +
    wget w "leakage" / total * leakage
  max 0 (min 100 (100 * score_0_to_1))

/-- Recommendation 1a of `advisor` (PPI > 65). -/
def msgPPIHigh : String :=
  "Prestige risk high (PPI > 65): reduce promo frequency and depth; avoid discounting hero SKUs; substitute bundles/GWP."

/-- Recommendation 1b of `advisor` (50 < PPI ≤ 65). -/
def msgPPIModerate : String :=
  "Prestige risk moderate (PPI 50–65): tighten spacing (≥9 weeks) and cap depth at ≤20%."

/-- Recommendation 1c of `advisor` (PPI ≤ 50). -/
def msgPPIProtected : String :=
  "Prestige protected: maintain current guardrails; consider shifting one sitewide promo to a discovery-set-with-credit event."

/-- Recommendation 2a of `advisor` (net GM delta < 0). -/
def msgGMErodes : String :=
  "Promo plan erodes net GM: cut depth or reduce event count; favor GWPs/bundles over %-off."

/-- Recommendation 2b of `advisor` (marginal net GM delta). -/
def msgGMMarginal : String :=
  "Promo plan marginal: reallocate one promo to discovery bundle; protect hero SKUs at list."

/-- Recommendation 2c of `advisor` (accretive). -/
def msgGMAccretive : String :=
  "Promo calendar accretive: keep min spacing and monitor troughs."

/-- Recommendation 3 of `advisor` (code_share > 0.4). -/
def msgCoupon : String :=
  "High coupon dependence: run 6–8 week detox; keep hero SKUs at list; target discounts to lapsed segments only."

/-- Recommendation 4a of `advisor` (payback absent or > 12 months). -/
def msgPaybackLong : String :=
  "Payback >12 months: favor micro-tier creators and in-store discovery to lower CAC; avoid deep discounts to acquire."

/-- Recommendation 4b of `advisor` (payback within 12 months). -/
def msgPaybackOK : String :=
  "Payback within 12 months: scale channels with similar CAC."

/-- Recommendation 5 of `advisor` (baseline_recovery_weeks > 4). -/
def msgTrough : String :=
  "Long post-promo trough: increase min spacing and add non-discount traffic drivers (sampling stands, masterclasses)."

/-- `advisor(promo_result, ppi, price, gm_pct, retention, months, cac,
code_share)` from core.py: five rule blocks appending to `recs` in order. -/
noncomputable def advisor (promo_result : PromoEvalResult)
    (ppi price gm_pct retention : ℝ) (months : ℕ) (cac code_share : ℝ) :
    List String :=
  let arpu_monthly := price / 12
  let pb := payback_month arpu_monthly gm_pct retention cac months
  let recs1 : List String :=
    [if 65 < ppi then msgPPIHigh
     else if 50 < ppi then msgPPIModerate
     else msgPPIProtected]
  let recs2 := recs1 ++
    [if promo_result.net_gm_delta < 0 then msgGMErodes
     else if promo_result.net_gm_delta < price * gm_pct * 10 then msgGMMarginal
     else msgGMAccretive]
  let recs3 := if 0.4 < code_share then recs2 ++ [msgCoupon] else recs2
  let recs4 := recs3 ++
    [match pb with
     | none => msgPaybackLong
     | some p => if 12 < p then msgPaybackLong else msgPaybackOK]
  let recs5 :=
    if 4 < promo_result.baseline_recovery_weeks then recs4 ++ [msgTrough]
    else recs4
  recs5

/-! ### Division-checked variants

Python raises `ZeroDivisionError` when a float division has divisor `0`.
Each `…Checked` definition below repeats the corresponding core function
with every internal division routed through `checkedDiv`, which returns
`none` exactly when Python would raise; proving `…Checked = some (…)`
shows every division of the original is guarded. -/

/-- Division that fails (as Python does) on a zero divisor. -/
noncomputable def checkedDiv (x y : ℝ) : Option ℝ :=
  if y = 0 then none else some (x / y)

/-- `ltv_gm` with the geometric-ratio division checked. -/
noncomputable def ltv_gmChecked (arpu gm_pct retention : ℝ) (months : ℕ) :
    Option ℝ :=
  let gm := arpu * gm_pct
  if retention = 1 then some (gm * months)
  else do
    let q ← checkedDiv (retention * (1 - retention ^ months)) (1 - retention)
    some (gm * q)

/-- Sequential effectful map over a list, failing at the first failure —
the order in which the week loop of `eval_promo_calendar` would hit a
`ZeroDivisionError`. -/
def seqMap {α β : Type} (f : α → Option β) : List α → Option (List β)
  | [] => some []
  | x :: xs => do
    let y ← f x
    let ys ← seqMap f xs
    some (y :: ys)

/-- `weekContrib` with the demand-multiplier division `1/(1-d)` checked. -/
noncomputable def weekContribChecked (baseline_weekly_units list_price gm_pct
    elasticity : ℝ) (events : List PromoEvent)
    (pull_forward_factor cannibalization_factor : ℝ) (w : ℕ) :
    Option (ℝ × ℝ) :=
  match promoByWeek events w with
  | some e => do
    let d := clamp e.depth 0 0.8
    let price := (1 - d) * list_price
    let inv ← checkedDiv 1 (1 - d)
    let mult := inv ^ (max 0 elasticity)
    let units := baseline_weekly_units * mult
    let gm_week := units * price * gm_pct
    let base_week_gm := baseline_weekly_units * list_price * gm_pct
    let uplift := max 0 (gm_week - base_week_gm)
    let cannib := uplift * cannibalization_factor
    let pull_fwd := uplift * pull_forward_factor
    let incremental := uplift - cannib - pull_fwd
    some (base_week_gm + incremental + cannib + pull_fwd, pull_fwd)
  | none => some (baseline_weekly_units * list_price * gm_pct, 0)

/-- `eval_promo_calendar` with every internal division (demand multiplier,
`avg_depth`, `promo_days_pct`, `delta_pct`) checked. -/
noncomputable def eval_promo_calendarChecked (baseline_weekly_units list_price
    gm_pct elasticity : ℝ) (weeks : ℕ) (events : List PromoEvent)
    (pull_forward_factor cannibalization_factor : ℝ) :
    Option PromoEvalResult := do
  let baseline_gm_total : ℝ :=
    (weeks : ℝ) * baseline_weekly_units * list_price * gm_pct
  let contribs ← seqMap (fun i =>
    weekContribChecked baseline_weekly_units list_price gm_pct elasticity
      events pull_forward_factor cannibalization_factor (i + 1))
    (List.range weeks)
  let net_gm := (contribs.map Prod.fst).sum
  let trough_penalty := (contribs.map Prod.snd).sum
  let net_gm_delta := net_gm - baseline_gm_total - trough_penalty
  let avg_depth ← if events.isEmpty then some (0 : ℝ)
    else checkedDiv (events.map PromoEvent.depth).sum (events.length : ℝ)
  let promo_days_pct ← if 0 < weeks then
      checkedDiv (events.length : ℝ) (weeks : ℝ)
    else some (0 : ℝ)
  let delta_pct ← if 0 < baseline_gm_total then do
      let q ← checkedDiv net_gm_delta baseline_gm_total
      some (q * 100)
    else some (0 : ℝ)
  some { net_gm_delta := net_gm_delta
         baseline_recovery_weeks :=
           max 0 (2 + 10 * avg_depth * pull_forward_factor)
         avg_depth := avg_depth
         promo_days_pct := promo_days_pct
         cannibalization_share := cannibalization_factor
         pull_forward_share := pull_forward_factor
         baseline_gm := baseline_gm_total
         delta_pct := delta_pct }

/-- `prestige_protection_index` with the weight-normalization divisions
checked. -/
noncomputable def prestige_protection_indexChecked (promo_days_pct avg_depth
    code_share hero_discount_incidence leakage : ℝ)
    (weights : Option (List (String × ℝ))) : Option ℝ := do
  let w0 := weights.getD default_weights
  let total0 : ℝ := if w0.isEmpty then 0 else sumVals w0
  let w := if total0 ≤ 0 then default_weights else w0
  let total : ℝ := if total0 ≤ 0 then 1 else total0
  let n1 ← checkedDiv (wget w "promo_days") total
  let n2 ← checkedDiv (wget w "avg_depth") total
  let n3 ← checkedDiv (wget w "code_share") total
  let n4 ← checkedDiv (wget w "hero") total
  let n5 ← checkedDiv (wget w "leakage") total
  let score_0_to_1 := n1 * promo_days_pct + n2 * avg_depth + n3 * code_share +
    n4 * hero_discount_incidence + n5 * leakage
  some (max 0 (min 100 (100 * score_0_to_1)))

/-- `advisor` with the ARPU-proxy division `price / 12` checked
(`payback_month` itself contains no division). -/
noncomputable def advisorChecked (promo_result : PromoEvalResult)
    (ppi price gm_pct retention : ℝ) (months : ℕ) (cac code_share : ℝ) :
    Option (List String) := do
  let arpu_monthly ← checkedDiv price 12
  let pb := payback_month arpu_monthly gm_pct retention cac months
  let recs1 : List String :=
    [if 65 < ppi then msgPPIHigh
     else if 50 < ppi then msgPPIModerate
     else msgPPIProtected]
  let recs2 := recs1 ++
    [if promo_result.net_gm_delta < 0 then msgGMErodes
     else if promo_result.net_gm_delta < price * gm_pct * 10 then msgGMMarginal
     else msgGMAccretive]
  let recs3 := if 0.4 < code_share then recs2 ++ [msgCoupon] else recs2
  let recs4 := recs3 ++
    [match pb with
     | none => msgPaybackLong
     | some p => if 12 < p then msgPaybackLong else msgPaybackOK]
  let recs5 :=
    if 4 < promo_result.baseline_recovery_weeks then recs4 ++ [msgTrough]
    else recs4
  some recs5

/-! ### Helper lemmas -/

/-- With no events every week contributes the plain baseline margin and no
trough penalty. -/
lemma weekContrib_nil (u p g el pff cf : ℝ) (w : ℕ) :
    weekContrib u p g el [] pff cf w = (u * p * g, 0) := by
  simp [weekContrib, promoByWeek]

/-- The advisory engine emits one message from each of its three
unconditional rule blocks plus one for each satisfied conditional rule. -/
lemma advisor_length (pr : PromoEvalResult) (ppi price gm_pct retention : ℝ)
    (months : ℕ) (cac code_share : ℝ) :
    (advisor pr ppi price gm_pct retention months cac code_share).length =
      3 + (if 0.4 < code_share then 1 else 0) +
        (if 4 < pr.baseline_recovery_weeks then 1 else 0) := by
  simp only [advisor]
  by_cases h1 : (0.4:ℝ) < code_share <;>
    by_cases h2 : (4:ℝ) < pr.baseline_recovery_weeks <;>
      simp [h1, h2]

/-- Two event lists that index to the same event every week produce the same
week contribution. -/
lemma weekContrib_congr (u p g el : ℝ) (ev1 ev2 : List PromoEvent)
    (pff cf : ℝ) (w : ℕ)
    (h : promoByWeek ev1 w = promoByWeek ev2 w) :
    weekContrib u p g el ev1 pff cf w = weekContrib u p g el ev2 pff cf w := by
  simp only [weekContrib, h]

/-- Event lists whose week contributions agree on every simulated week
`1..weeks` produce the same simulated margin delta (and hence the same delta
percentage): the loop only ever looks up weeks in that range. -/
lemma eval_sim_congr (u p g el : ℝ) (weeks : ℕ) (ev1 ev2 : List PromoEvent)
    (pff cf : ℝ)
    (h : ∀ w, 1 ≤ w → w ≤ weeks → weekContrib u p g el ev1 pff cf w =
      weekContrib u p g el ev2 pff cf w) :
    (eval_promo_calendar u p g el weeks ev1 pff cf).net_gm_delta =
      (eval_promo_calendar u p g el weeks ev2 pff cf).net_gm_delta ∧
    (eval_promo_calendar u p g el weeks ev1 pff cf).delta_pct =
      (eval_promo_calendar u p g el weeks ev2 pff cf).delta_pct := by
  have hmap : (List.range weeks).map (fun i => weekContrib u p g el ev1 pff cf (i+1)) =
      (List.range weeks).map (fun i => weekContrib u p g el ev2 pff cf (i+1)) :=
    List.map_congr_left (fun a ha => h (a+1) (by omega)
      (by have := List.mem_range.mp ha; omega))
  constructor <;> simp only [eval_promo_calendar, hmap]

/-- Week lookup in a one-event calendar. -/
lemma promoByWeek_singleton (e : PromoEvent) (w' : ℕ) :
    promoByWeek [e] w' = if e.week = w' then some e else none := by
  by_cases h : e.week = w' <;> simp [promoByWeek, List.find?, h]

/-- A depth of 1.5 and a depth of 0.8 clamp to the same value. -/
lemma clamp_15_eq_clamp_08 : clamp (1.5:ℝ) 0 0.8 = clamp 0.8 0 0.8 := by
  norm_num [clamp]

/-- Single events of depth 1.5 and of depth 0.8 in the same week make equal
week contributions, because the simulated depth is clamped. -/
lemma weekContrib_c2 (u p g el pff cf : ℝ) (w : ℕ) (ch1 ch2 : String) (w' : ℕ) :
    weekContrib u p g el [⟨w, 1.5, ch1⟩] pff cf w' =
    weekContrib u p g el [⟨w, 0.8, ch2⟩] pff cf w' := by
  simp only [weekContrib, promoByWeek_singleton]
  by_cases hw : w = w'
  · simp only [hw]
    simp [clamp_15_eq_clamp_08]
  · simp [hw]

/-- Filtering out events by a predicate that holds for every event of week
`w` does not change the week-`w` lookup. -/
lemma promoByWeek_filter (events : List PromoEvent) (p : PromoEvent → Bool)
    (w : ℕ) (h : ∀ e : PromoEvent, e.week = w → p e = true) :
    promoByWeek (events.filter p) w = promoByWeek events w := by
  simp only [promoByWeek]
  rw [← List.filter_reverse]
  generalize events.reverse = l
  induction l with
  | nil => simp
  | cons a l ih =>
    by_cases hpa : p a = true
    · rw [List.filter_cons_of_pos hpa]
      by_cases hqa : a.week = w
      · simp [List.find?, hqa]
      · simp [List.find?, hqa, ih]
    · have hqa : ¬ a.week = w := fun hq => hpa (h a hq)
      rw [List.filter_cons_of_neg (by simpa using hpa)]
      rw [ih]
      simp [List.find?, hqa]

/-- Appending a duplicate-week event before the last one does not change the
week index: the later event wins, as in the Python dict comprehension. -/
lemma promoByWeek_append_last (es : List PromoEvent) (e1 e2 : PromoEvent)
    (h : e1.week = e2.week) (w : ℕ) :
    promoByWeek (es ++ [e1, e2]) w = promoByWeek (es ++ [e2]) w := by
  simp only [promoByWeek, List.reverse_append, List.reverse_cons,
    List.reverse_nil, List.nil_append, List.cons_append]
  by_cases h2 : e2.week = w
  · simp [List.find?, h2]
  · have h1 : ¬ e1.week = w := by rw [h]; exact h2
    simp [List.find?, h1, h2]

/-- Scaling every weight scales the value sum. -/
lemma sumVals_scale (c : ℝ) (w : List (String × ℝ)) :
    sumVals (w.map (fun kv => (kv.1, c * kv.2))) = c * sumVals w := by
  induction w with
  | nil => simp [sumVals]
  | cons kv rest ih =>
    simp [sumVals, List.map_cons] at ih ⊢
    rw [ih]
    ring

/-- Scaling every weight scales each lookup. -/
lemma wget_scale (c : ℝ) (w : List (String × ℝ)) (key : String) :
    wget (w.map (fun kv => (kv.1, c * kv.2))) key = c * wget w key := by
  induction w with
  | nil => simp [wget]
  | cons kv rest ih =>
    by_cases h : kv.1 = key
    · simp [wget, h]
    · simp [wget, h, ih]

/-- The cumulative margin of an empty horizon is zero. -/
lemma cumGM_zero (gm retention : ℝ) : cumGM gm retention 0 = 0 := by
  simp [cumGM]

/-- One more month adds one more discounted-margin term. -/
lemma cumGM_succ (gm retention : ℝ) (n : ℕ) :
    cumGM gm retention (n + 1) = cumGM gm retention n + gm * retention ^ (n + 1) := by
  rw [cumGM, cumGM, Finset.sum_Icc_succ_top (by omega)]

/-- Loop invariant for `paybackFrom`: started at month `n+1` with the
accumulator holding `cumGM n`, it returns the first in-range month whose
cumulative margin reaches `cac`, and `none` exactly when no in-range month
does. -/
lemma paybackFrom_spec (gm retention cac : ℝ) :
    ∀ (fuel n : ℕ),
      (∀ t, paybackFrom gm retention cac (cumGM gm retention n) (n + 1) fuel = some t ↔
        (n + 1 ≤ t ∧ t < n + 1 + fuel ∧ cac ≤ cumGM gm retention t ∧
          ∀ s, n + 1 ≤ s → s < t → cumGM gm retention s < cac)) ∧
      (paybackFrom gm retention cac (cumGM gm retention n) (n + 1) fuel = none ↔
        ∀ s, n + 1 ≤ s → s < n + 1 + fuel → cumGM gm retention s < cac) := by
  intro fuel
  induction fuel with
  | zero =>
    intro n
    constructor
    · intro t
      simp only [paybackFrom]
      constructor
      · intro h
        exact absurd h (by simp)
      · rintro ⟨h1, h2, -, -⟩
        exact absurd h2 (by omega)
    · simp only [paybackFrom]
      constructor
      · intro _ s hs1 hs2
        exact absurd hs2 (by omega)
      · intro _
        trivial
  | succ fuel ih =>
    intro n
    have hstep : paybackFrom gm retention cac (cumGM gm retention n) (n + 1) (fuel + 1) =
        if cac ≤ cumGM gm retention (n + 1) then some (n + 1)
        else paybackFrom gm retention cac (cumGM gm retention (n + 1)) (n + 1 + 1) fuel := by
      rw [paybackFrom]
      simp only [← cumGM_succ]
    by_cases hc : cac ≤ cumGM gm retention (n + 1)
    · rw [hstep, if_pos hc]
      constructor
      · intro t
        constructor
        · intro h
          have ht : t = n + 1 := (Option.some.injEq _ _).mp h |>.symm
          subst ht
          exact ⟨le_refl _, by omega, hc, fun s hs1 hs2 => absurd hs2 (by omega)⟩
        · rintro ⟨h1, h2, h3, h4⟩
          have ht : t = n + 1 := by
            by_contra hne
            have hlt : n + 1 < t := by omega
            exact absurd hc (not_le.mpr (h4 (n + 1) (le_refl _) hlt))
          rw [ht]
      · constructor
        · intro h
          exact absurd h (by simp)
        · intro hall
          exact absurd hc (not_le.mpr (hall (n + 1) (le_refl _) (by omega)))
    · rw [hstep, if_neg hc]
      have hlt : cumGM gm retention (n + 1) < cac := not_le.mp hc
      obtain ⟨ihsome, ihnone⟩ := ih (n + 1)
      constructor
      · intro t
        rw [ihsome t]
        constructor
        · rintro ⟨h1, h2, h3, h4⟩
          refine ⟨by omega, by omega, h3, fun s hs1 hs2 => ?_⟩
          rcases Nat.lt_or_ge s (n + 1 + 1) with hs | hs
          · have : s = n + 1 := by omega
            rw [this]
            exact hlt
          · exact h4 s hs hs2
        · rintro ⟨h1, h2, h3, h4⟩
          have ht : t ≠ n + 1 := by
            intro h
            rw [h] at h3
            linarith
          exact ⟨by omega, by omega, h3, fun s hs1 hs2 => h4 s (by omega) hs2⟩
      · rw [ihnone]
        constructor
        · intro hall s hs1 hs2
          rcases Nat.lt_or_ge s (n + 1 + 1) with hs | hs
          · have : s = n + 1 := by omega
            rw [this]
            exact hlt
          · exact hall s hs (by omega)
        · intro hall s hs1 hs2
          exact hall s (by omega) (by omega)

/-- `payback_month` returns the first month whose cumulative discounted
margin reaches `cac`, and `none` exactly when no month within the horizon
does. -/
lemma payback_month_spec (arpu gm_pct retention cac : ℝ) (months : ℕ) :
    (∀ t, payback_month arpu gm_pct retention cac months = some t ↔
      (1 ≤ t ∧ t ≤ months ∧ cac ≤ cumGM (arpu * gm_pct) retention t ∧
        ∀ s, 1 ≤ s → s < t → cumGM (arpu * gm_pct) retention s < cac)) ∧
    (payback_month arpu gm_pct retention cac months = none ↔
      ∀ t, 1 ≤ t → t ≤ months → cumGM (arpu * gm_pct) retention t < cac) := by
  have h := paybackFrom_spec (arpu * gm_pct) retention cac months 0
  simp only [cumGM_zero, Nat.zero_add] at h
  constructor
  · intro t
    rw [payback_month, h.1 t]
    constructor
    · rintro ⟨h1, h2, h3, h4⟩
      exact ⟨h1, by omega, h3, h4⟩
    · rintro ⟨h1, h2, h3, h4⟩
      exact ⟨h1, by omega, h3, h4⟩
  · rw [payback_month, h.2]
    constructor
    · intro hall t ht1 ht2
      exact hall t ht1 (by omega)
    · intro hall t ht1 ht2
      exact hall t ht1 (by omega)

/-- `checkedDiv` succeeds exactly on nonzero divisors. -/
lemma checkedDiv_eq (x y : ℝ) (h : y ≠ 0) : checkedDiv x y = some (x / y) :=
  if_neg h

/-- The clamped depth never exceeds 0.8. -/
lemma clamp_le_hi (x : ℝ) : clamp x 0 0.8 ≤ 0.8 :=
  max_le (by norm_num) (min_le_left _ _)

/-- The demand-multiplier divisor `1 - d` is nonzero after clamping. -/
lemma one_sub_clamp_ne (x : ℝ) : (1:ℝ) - clamp x 0 0.8 ≠ 0 := by
  have := clamp_le_hi x
  intro h0
  have : clamp x 0 0.8 = 1 := by linarith
  linarith

/-- The geometric-ratio division of `ltv_gm` is guarded by the
`retention = 1` special case. -/
lemma ltv_gmChecked_eq (arpu gm_pct retention : ℝ) (months : ℕ) :
    ltv_gmChecked arpu gm_pct retention months =
      some (ltv_gm arpu gm_pct retention months) := by
  by_cases h : retention = 1
  · simp [ltv_gmChecked, ltv_gm, h]
  · have hne : (1:ℝ) - retention ≠ 0 := sub_ne_zero.mpr (Ne.symm h)
    simp [ltv_gmChecked, ltv_gm, h, checkedDiv_eq _ _ hne]

/-- The demand-multiplier division of a promo week never fails. -/
lemma weekContribChecked_eq (u p g el : ℝ) (events : List PromoEvent)
    (pff cf : ℝ) (w : ℕ) :
    weekContribChecked u p g el events pff cf w =
      some (weekContrib u p g el events pff cf w) := by
  rcases hpw : promoByWeek events w with _ | e
  · simp [weekContribChecked, weekContrib, hpw]
  · simp only [weekContribChecked, weekContrib, hpw]
    rw [checkedDiv_eq _ _ (one_sub_clamp_ne e.depth)]
    rfl

/-- A sequential effectful map whose steps all succeed is a plain map. -/
lemma seqMap_eq_some_map {α β : Type} (f : α → Option β) (g : α → β)
    (l : List α) (h : ∀ x ∈ l, f x = some (g x)) :
    seqMap f l = some (l.map g) := by
  induction l with
  | nil => simp [seqMap]
  | cons x xs ih =>
    rw [seqMap, h x (List.mem_cons_self x xs),
      ih (fun y hy => h y (List.mem_cons_of_mem x hy))]
    rfl

/-- Every division of `eval_promo_calendar` is guarded. -/
lemma eval_promo_calendarChecked_eq (u p g el : ℝ) (weeks : ℕ)
    (events : List PromoEvent) (pff cf : ℝ) :
    eval_promo_calendarChecked u p g el weeks events pff cf =
      some (eval_promo_calendar u p g el weeks events pff cf) := by
  rw [eval_promo_calendarChecked, eval_promo_calendar]
  rw [seqMap_eq_some_map _ (fun i => weekContrib u p g el events pff cf (i + 1)) _
    (fun x _ => weekContribChecked_eq u p g el events pff cf (x + 1))]
  by_cases h1 : events.isEmpty
  · by_cases h2 : 0 < weeks
    · by_cases h3 : 0 < (weeks : ℝ) * u * p * g
      · have hw : ((weeks : ℝ)) ≠ 0 := Nat.cast_ne_zero.mpr (by omega : weeks ≠ 0)
        simp [h1, h2, h3, checkedDiv_eq _ _ hw, promo_delta_pct,
          checkedDiv_eq _ _ (ne_of_gt h3)]
      · have hw : ((weeks : ℝ)) ≠ 0 := Nat.cast_ne_zero.mpr (by omega : weeks ≠ 0)
        simp [h1, h2, h3, checkedDiv_eq _ _ hw, promo_delta_pct]
    · by_cases h3 : 0 < (weeks : ℝ) * u * p * g
      · simp [h1, h2, h3, promo_delta_pct, checkedDiv_eq _ _ (ne_of_gt h3)]
      · simp [h1, h2, h3, promo_delta_pct]
  · have hlen : ((events.length : ℝ)) ≠ 0 :=
      Nat.cast_ne_zero.mpr (List.length_pos.mpr (by simpa [List.isEmpty_iff] using h1)).ne'
    by_cases h2 : 0 < weeks
    · by_cases h3 : 0 < (weeks : ℝ) * u * p * g
      · have hw : ((weeks : ℝ)) ≠ 0 := Nat.cast_ne_zero.mpr (by omega : weeks ≠ 0)
        simp [h1, h2, h3, checkedDiv_eq _ _ hw, checkedDiv_eq _ _ hlen,
          promo_delta_pct, checkedDiv_eq _ _ (ne_of_gt h3)]
      · have hw : ((weeks : ℝ)) ≠ 0 := Nat.cast_ne_zero.mpr (by omega : weeks ≠ 0)
        simp [h1, h2, h3, checkedDiv_eq _ _ hw, checkedDiv_eq _ _ hlen, promo_delta_pct]
    · by_cases h3 : 0 < (weeks : ℝ) * u * p * g
      · simp [h1, h2, h3, checkedDiv_eq _ _ hlen, promo_delta_pct,
          checkedDiv_eq _ _ (ne_of_gt h3)]
      · simp [h1, h2, h3, checkedDiv_eq _ _ hlen, promo_delta_pct]

/-- Every weight-normalization division of `prestige_protection_index` is
guarded: the substituted total is `1` and the kept total is positive. -/
lemma prestige_protection_indexChecked_eq (p a cs hh l : ℝ)
    (weights : Option (List (String × ℝ))) :
    prestige_protection_indexChecked p a cs hh l weights =
      some (prestige_protection_index p a cs hh l weights) := by
  simp only [prestige_protection_indexChecked, prestige_protection_index]
  by_cases h : (if (weights.getD default_weights).isEmpty then (0:ℝ)
      else sumVals (weights.getD default_weights)) ≤ 0
  · simp only [if_pos h]
    rw [checkedDiv_eq _ _ (one_ne_zero : (1:ℝ) ≠ 0), checkedDiv_eq _ _ (one_ne_zero : (1:ℝ) ≠ 0),
      checkedDiv_eq _ _ (one_ne_zero : (1:ℝ) ≠ 0), checkedDiv_eq _ _ (one_ne_zero : (1:ℝ) ≠ 0),
      checkedDiv_eq _ _ (one_ne_zero : (1:ℝ) ≠ 0)]
    rfl
  · have hne : (if (weights.getD default_weights).isEmpty then (0:ℝ)
        else sumVals (weights.getD default_weights)) ≠ 0 := by
      intro h0
      exact h (le_of_eq h0)
    simp only [if_neg h]
    rw [checkedDiv_eq _ _ hne, checkedDiv_eq _ _ hne, checkedDiv_eq _ _ hne,
      checkedDiv_eq _ _ hne, checkedDiv_eq _ _ hne]
    rfl

/-- The ARPU-proxy division of `advisor` has the constant divisor 12. -/
lemma advisorChecked_eq (pr : PromoEvalResult) (ppi price gm_pct retention : ℝ)
    (months : ℕ) (cac code_share : ℝ) :
    advisorChecked pr ppi price gm_pct retention months cac code_share =
      some (advisor pr ppi price gm_pct retention months cac code_share) := by
  rw [advisorChecked, advisor, checkedDiv_eq _ _ (by norm_num : (12:ℝ) ≠ 0)]
  rfl

/-! ### Claim theorems -/

/-- C1 (counterexample): with `code_share = 0`, which is `≤ 0.4`, and a promo
result whose `baseline_recovery_weeks` is `0`, `advisor` returns 3 messages,
not the 5 the claim asserts: only three of its five rule blocks append
unconditionally. -/
theorem advisor_count_counterexample :
    ((0:ℝ) ≤ 0.4) ∧
    (advisor ⟨0, 0, 0, 0, 0, 0, 0, 0⟩ 0 0 0 0 0 0 0).length ≠ 5 := by
  refine ⟨by norm_num, ?_⟩
  rw [advisor_length]
  norm_num

/-- C1 (amended): for every input set, `advisor` returns between 3 and 5
messages: exactly `3 + (1 if code_share > 0.4) +
(1 if promo_result.baseline_recovery_weeks > 4)`, regardless of the other
arguments. -/
theorem advisor_message_count (pr : PromoEvalResult)
    (ppi price gm_pct retention : ℝ) (months : ℕ) (cac code_share : ℝ) :
    (advisor pr ppi price gm_pct retention months cac code_share).length =
      3 + (if 0.4 < code_share then 1 else 0) +
        (if 4 < pr.baseline_recovery_weeks then 1 else 0) :=
  advisor_length pr ppi price gm_pct retention months cac code_share

/-- C2 (counterexample): a single event of depth 1.5 does not give a result
identical in every field to the same event with depth 0.8 — the `avg_depth`
field averages the raw, unclamped depths, so it differs (1.5 vs 0.8). -/
theorem depth_clamp_counterexample :
    (eval_promo_calendar 0 0 0 0 1 [⟨1, 1.5, "DTC"⟩] 0.35 0.25).avg_depth ≠
    (eval_promo_calendar 0 0 0 0 1 [⟨1, 0.8, "DTC"⟩] 0.35 0.25).avg_depth := by
  simp only [eval_promo_calendar]
  norm_num

/-- C2 (amended): depth is clamped to `[0, 0.8]` before use in the
simulation — a single event of depth 1.5 yields the same `net_gm_delta`,
`promo_days_pct`, `baseline_gm` and `delta_pct` as the same event with depth
0.8; only the reported summary fields `avg_depth` (and hence
`baseline_recovery_weeks`), which use the raw depth, differ. -/
theorem depth_clamped_in_simulation (u p g el : ℝ) (weeks : ℕ) (w : ℕ)
    (ch1 ch2 : String) (pff cf : ℝ) :
    (eval_promo_calendar u p g el weeks [⟨w, 1.5, ch1⟩] pff cf).net_gm_delta =
      (eval_promo_calendar u p g el weeks [⟨w, 0.8, ch2⟩] pff cf).net_gm_delta ∧
    (eval_promo_calendar u p g el weeks [⟨w, 1.5, ch1⟩] pff cf).promo_days_pct =
      (eval_promo_calendar u p g el weeks [⟨w, 0.8, ch2⟩] pff cf).promo_days_pct ∧
    (eval_promo_calendar u p g el weeks [⟨w, 1.5, ch1⟩] pff cf).baseline_gm =
      (eval_promo_calendar u p g el weeks [⟨w, 0.8, ch2⟩] pff cf).baseline_gm ∧
    (eval_promo_calendar u p g el weeks [⟨w, 1.5, ch1⟩] pff cf).delta_pct =
      (eval_promo_calendar u p g el weeks [⟨w, 0.8, ch2⟩] pff cf).delta_pct := by
  have h := eval_sim_congr u p g el weeks [⟨w, 1.5, ch1⟩] [⟨w, 0.8, ch2⟩] pff cf
    (fun w' _ _ => weekContrib_c2 u p g el pff cf w ch1 ch2 w')
  exact ⟨h.1, rfl, rfl, h.2⟩

/-- C3: `prestige_protection_index` is always within `[0, 100]` for all real
factor inputs and any weights argument; with all five factors 0 it is
exactly 0 for any weights; with all five factors 1 and the default weights
it is exactly 100. -/
theorem ppi_bounds_and_endpoints :
    (∀ p a c h l w, 0 ≤ prestige_protection_index p a c h l w ∧
        prestige_protection_index p a c h l w ≤ 100) ∧
    (∀ w, prestige_protection_index 0 0 0 0 0 w = 0) ∧
    prestige_protection_index 1 1 1 1 1 none = 100 := by
  refine ⟨fun p a c h l w => ?_, fun w => ?_, ?_⟩
  · constructor
    · simp only [prestige_protection_index]
      exact le_max_left _ _
    · simp only [prestige_protection_index]
      exact max_le (by norm_num) (min_le_left _ _)
  · simp [prestige_protection_index]
  · simp +decide [prestige_protection_index, default_weights, sumVals, wget]
    norm_num

/-- C4: `ltv_gm` equals `arpu * gm_pct * months` when `retention = 1`, and
equals the closed-form finite geometric sum
`arpu * gm_pct * retention * (1 - retention^months) / (1 - retention)` for
every `retention ∈ (0, 1)`. -/
theorem ltv_gm_formula (arpu gm_pct retention : ℝ) (months : ℕ) :
    (retention = 1 →
      ltv_gm arpu gm_pct retention months = arpu * gm_pct * months) ∧
    (0 < retention → retention < 1 →
      ltv_gm arpu gm_pct retention months =
        arpu * gm_pct * retention * (1 - retention ^ months) / (1 - retention)) := by
  constructor
  · intro h
    simp [ltv_gm, h]
  · intro _ h2
    have hne : retention ≠ 1 := ne_of_lt h2
    have hsub : (1 : ℝ) - retention ≠ 0 := sub_ne_zero.mpr (Ne.symm hne)
    simp only [ltv_gm, if_neg hne]
    field_simp
    ring

/-- C5: `payback_month` returns `some t` exactly when `t` is the smallest
month in `1..months` whose cumulative discounted margin
`Σ_{k=1..t} arpu*gm_pct*retention^k` reaches `cac`, and `none` exactly when
no month within the horizon reaches `cac`. -/
theorem payback_month_first_hit (arpu gm_pct retention cac : ℝ) (months : ℕ) :
    (∀ t, payback_month arpu gm_pct retention cac months = some t ↔
      (1 ≤ t ∧ t ≤ months ∧ cac ≤ cumGM (arpu * gm_pct) retention t ∧
        ∀ s, 1 ≤ s → s < t → cumGM (arpu * gm_pct) retention s < cac)) ∧
    (payback_month arpu gm_pct retention cac months = none ↔
      ∀ t, 1 ≤ t → t ≤ months → cumGM (arpu * gm_pct) retention t < cac) :=
  payback_month_spec arpu gm_pct retention cac months

/-- C6: `payback_month` is monotonically non-decreasing in `cac` — if the
higher `cac2` is reached at month `t2`, the lower `cac1 ≤ cac2` is reached
at some month `t1 ≤ t2`; raising `cac` can only turn a found month into
`none`, never the reverse. -/
theorem payback_month_mono_cac (arpu gm_pct retention : ℝ) (months : ℕ)
    (cac1 cac2 : ℝ) (hc : cac1 ≤ cac2) (t2 : ℕ)
    (h2 : payback_month arpu gm_pct retention cac2 months = some t2) :
    ∃ t1, payback_month arpu gm_pct retention cac1 months = some t1 ∧ t1 ≤ t2 := by
  obtain ⟨ht1, ht2, hcum, hmin⟩ :=
    ((payback_month_spec arpu gm_pct retention cac2 months).1 t2).mp h2
  rcases ho : payback_month arpu gm_pct retention cac1 months with _ | t1
  · have hall := (payback_month_spec arpu gm_pct retention cac1 months).2.mp ho
    have := hall t2 ht1 ht2
    linarith
  · obtain ⟨h1, hle2, hcum1, hmin1⟩ :=
      ((payback_month_spec arpu gm_pct retention cac1 months).1 t1).mp ho
    refine ⟨t1, rfl, ?_⟩
    by_contra hgt
    have := hmin1 t2 ht1 (by omega)
    linarith

/-- C6 (witness): at `arpu = gm_pct = retention = 1`, `months = 1`,
`cac2 = 1` the payback month is 1, and lowering the CAC to 0 yields a
payback month of at most 1. -/
theorem payback_month_mono_cac_witness :
    ∃ t1, payback_month 1 1 1 0 1 = some t1 ∧ t1 ≤ 1 :=
  payback_month_mono_cac 1 1 1 1 0 1 (by norm_num) 1
    (((payback_month_spec 1 1 1 1 1).1 1).mpr
      ⟨le_refl 1, le_refl 1, by norm_num [cumGM],
        fun s hs1 hs2 => absurd hs2 (by omega)⟩)

/-- C7: `eval_promo_calendar` with an empty event list returns
`net_gm_delta = 0`, `avg_depth = 0` and `promo_days_pct = 0` for every
choice of the other arguments. -/
theorem eval_empty_calendar (u p g el : ℝ) (weeks : ℕ) (pff cf : ℝ) :
    (eval_promo_calendar u p g el weeks [] pff cf).net_gm_delta = 0 ∧
    (eval_promo_calendar u p g el weeks [] pff cf).avg_depth = 0 ∧
    (eval_promo_calendar u p g el weeks [] pff cf).promo_days_pct = 0 := by
  refine ⟨?_, ?_, ?_⟩
  · simp only [eval_promo_calendar, weekContrib_nil]
    simp [List.map_const', List.sum_replicate, nsmul_eq_mul]
    ring
  · simp [eval_promo_calendar]
  · simp only [eval_promo_calendar]
    split <;> simp

/-- C8: `prestige_protection_index` normalizes weights by their sum, so
scaling all weights by a positive constant leaves the score unchanged; with
no weights, or weights summing to `≤ 0`, the score is the one computed from
the fixed default weighting (promo_days 0.20, avg_depth 0.25,
code_share 0.25, hero 0.20, leakage 0.10). -/
theorem ppi_weight_normalization (p a cs h l : ℝ) :
    (∀ (w : List (String × ℝ)) (c : ℝ), 0 < c → 0 < sumVals w →
      prestige_protection_index p a cs h l
          (some (w.map (fun kv => (kv.1, c * kv.2)))) =
        prestige_protection_index p a cs h l (some w)) ∧
    (prestige_protection_index p a cs h l none =
      max 0 (min 100 (100 * (0.20 * p + 0.25 * a + 0.25 * cs + 0.20 * h + 0.10 * l)))) ∧
    (∀ w : List (String × ℝ), sumVals w ≤ 0 →
      prestige_protection_index p a cs h l (some w) =
        max 0 (min 100 (100 * (0.20 * p + 0.25 * a + 0.25 * cs + 0.20 * h + 0.10 * l)))) := by
  refine ⟨fun w c hc hsum => ?_, ?_, fun w hsum => ?_⟩
  · have hne : w ≠ [] := by
      intro h0
      rw [h0] at hsum
      simp [sumVals] at hsum
    have hB : ¬ (w.isEmpty = true) := by simpa [List.isEmpty_iff] using hne
    have hA : ¬ ((w.map (fun kv => (kv.1, c * kv.2))).isEmpty = true) := by
      simpa [List.isEmpty_iff, List.map_eq_nil_iff] using hne
    have hns : ¬ (c * sumVals w ≤ 0) := not_le.mpr (mul_pos hc hsum)
    have hns' : ¬ (sumVals w ≤ 0) := not_le.mpr hsum
    simp only [prestige_protection_index, Option.getD_some, if_neg hA, if_neg hB,
      sumVals_scale, if_neg hns, if_neg hns', wget_scale]
    rw [mul_div_mul_left _ _ (ne_of_gt hc), mul_div_mul_left _ _ (ne_of_gt hc),
      mul_div_mul_left _ _ (ne_of_gt hc), mul_div_mul_left _ _ (ne_of_gt hc),
      mul_div_mul_left _ _ (ne_of_gt hc)]
  · simp +decide [prestige_protection_index, default_weights, sumVals, wget]
    norm_num
  · have htot : (if w.isEmpty then (0:ℝ) else sumVals w) ≤ 0 := by
      split
      · exact le_refl 0
      · exact hsum
    simp only [prestige_protection_index, Option.getD_some, if_pos htot]
    simp +decide [default_weights, wget]

/-- C8 (witness): doubling the weights of a concrete positive-sum table
leaves the score unchanged. -/
theorem ppi_weight_normalization_witness :
    prestige_protection_index 1 0 0 0 0
        (some (([("promo_days", 3)] : List (String × ℝ)).map
          (fun kv => (kv.1, 2 * kv.2)))) =
      prestige_protection_index 1 0 0 0 0 (some [("promo_days", 3)]) :=
  (ppi_weight_normalization 1 0 0 0 0).1 [("promo_days", 3)] 2 (by norm_num)
    (by norm_num [sumVals])

/-- C9: every division of the core is guarded — variants of `ltv_gm`,
`eval_promo_calendar`, `prestige_protection_index` and `advisor` that fail
(as Python would) on a zero divisor succeed with the original value on all
real inputs, all horizons including zero weeks, and all event lists
(`payback_month` and `ppi_band` contain no division at all). -/
theorem core_division_guards :
    (∀ (arpu gm_pct retention : ℝ) (months : ℕ),
      ltv_gmChecked arpu gm_pct retention months =
        some (ltv_gm arpu gm_pct retention months)) ∧
    (∀ (u p g el : ℝ) (weeks : ℕ) (events : List PromoEvent) (pff cf : ℝ),
      eval_promo_calendarChecked u p g el weeks events pff cf =
        some (eval_promo_calendar u p g el weeks events pff cf)) ∧
    (∀ (p a cs hh l : ℝ) (weights : Option (List (String × ℝ))),
      prestige_protection_indexChecked p a cs hh l weights =
        some (prestige_protection_index p a cs hh l weights)) ∧
    (∀ (pr : PromoEvalResult) (ppi price gm_pct retention : ℝ) (months : ℕ)
        (cac code_share : ℝ),
      advisorChecked pr ppi price gm_pct retention months cac code_share =
        some (advisor pr ppi price gm_pct retention months cac code_share)) :=
  ⟨ltv_gmChecked_eq, eval_promo_calendarChecked_eq,
    prestige_protection_indexChecked_eq, advisorChecked_eq⟩

/-- C10: `eval_promo_calendar` counts every event in its summary statistics —
`avg_depth` is the mean of the raw, unclamped depths and `promo_days_pct` is
`len(events)/weeks`, however the weeks are placed — while only the last
event per week with week in `1..weeks` affects the simulated `net_gm_delta`:
a trailing duplicate-week event supersedes the earlier one, `net_gm_delta`
depends on the event list only through the week-indexed lookup on the weeks
`1..weeks`, and discarding every event whose week lies outside `1..weeks`
leaves `net_gm_delta` unchanged; consequently `avg_depth` can exceed 0.8 and
`promo_days_pct` can exceed 1 (shown here with three depth-0.9 events, two
of them outside the 2-week horizon). -/
theorem eval_raw_summary_stats (u p g el : ℝ) (weeks : ℕ)
    (events : List PromoEvent) (pff cf : ℝ)
    (hev : events ≠ []) (hw : 0 < weeks) :
    (eval_promo_calendar u p g el weeks events pff cf).avg_depth =
      (events.map PromoEvent.depth).sum / (events.length : ℝ) ∧
    (eval_promo_calendar u p g el weeks events pff cf).promo_days_pct =
      (events.length : ℝ) / (weeks : ℝ) ∧
    (∀ e1 e2 : PromoEvent, e1.week = e2.week →
      (eval_promo_calendar u p g el weeks (events ++ [e1, e2]) pff cf).net_gm_delta =
      (eval_promo_calendar u p g el weeks (events ++ [e2]) pff cf).net_gm_delta) ∧
    (∀ ev2 : List PromoEvent,
      (∀ w', 1 ≤ w' → w' ≤ weeks → promoByWeek events w' = promoByWeek ev2 w') →
      (eval_promo_calendar u p g el weeks events pff cf).net_gm_delta =
      (eval_promo_calendar u p g el weeks ev2 pff cf).net_gm_delta) ∧
    (eval_promo_calendar u p g el weeks
        (events.filter (fun e => 1 ≤ e.week ∧ e.week ≤ weeks)) pff cf).net_gm_delta =
      (eval_promo_calendar u p g el weeks events pff cf).net_gm_delta ∧
    (0.8 < (eval_promo_calendar 0 0 0 0 2
        [⟨1, 0.9, "a"⟩, ⟨3, 0.9, "b"⟩, ⟨9, 0.9, "c"⟩] 0 0).avg_depth ∧
      1 < (eval_promo_calendar 0 0 0 0 2
        [⟨1, 0.9, "a"⟩, ⟨3, 0.9, "b"⟩, ⟨9, 0.9, "c"⟩] 0 0).promo_days_pct) := by
  refine ⟨?_, ?_, ?_, ?_, ?_, ?_, ?_⟩
  · simp only [eval_promo_calendar]
    rw [if_neg (by simpa using hev)]
  · simp only [eval_promo_calendar]
    rw [if_pos hw]
  · intro e1 e2 he
    exact (eval_sim_congr u p g el weeks _ _ pff cf
      (fun w' _ _ => weekContrib_congr u p g el _ _ pff cf w'
        (promoByWeek_append_last events e1 e2 he w'))).1
  · intro ev2 hpb
    exact (eval_sim_congr u p g el weeks events ev2 pff cf
      (fun w' h1 h2 => weekContrib_congr u p g el _ _ pff cf w'
        (hpb w' h1 h2))).1
  · exact (eval_sim_congr u p g el weeks _ events pff cf
      (fun w' h1 h2 => weekContrib_congr u p g el _ _ pff cf w'
        (promoByWeek_filter events _ w'
          (fun e he => by simp [he]; omega)))).1
  · simp only [eval_promo_calendar]
    norm_num
  · simp only [eval_promo_calendar]
    norm_num

/-- C10 (witness): the raw-statistics characterization applied to a concrete
one-event calendar over one week. -/
theorem eval_raw_summary_stats_witness :
    (eval_promo_calendar 0 0 0 0 1 [⟨1, 0.5, "x"⟩] 0 0).avg_depth =
      (([⟨1, 0.5, "x"⟩] : List PromoEvent).map PromoEvent.depth).sum /
        ((([⟨1, 0.5, "x"⟩] : List PromoEvent).length : ℕ) : ℝ) :=
  (eval_raw_summary_stats 0 0 0 0 1 [⟨1, 0.5, "x"⟩] 0 0
    (by simp) (by norm_num)).1

end PrestigeGTM
